import Mathlib

set_option linter.unusedSectionVars false

/-!
Verification of the maintenance-window optimizer in
`job_maintain_service.py` (functions `get_maintenance_windows` and
`job_maintain_service`).

The numeric computations of the source are modelled over an arbitrary
linear ordered field `α` equipped with a `CostModel` providing the
transcendental functions `exp`, `sin`, `cos`; the claim theorems
instantiate `α := ℝ` with the genuine `Real.exp`, `Real.sin`, `Real.cos`.
The list-processing parts (filtering, extrema extraction, downsampling,
response assembly) are translated directly from the Python source.
-/

namespace Plasser

/-- The transcendental functions used by the cost formula. -/
structure CostModel (α : Type) where
  exp : α → α
  sin : α → α
  cos : α → α

variable {α : Type} [LinearOrderedField α] [FloorRing α]

/-- Python `round(x, k)`: rounding to `k` decimal places
(idealised over the field: nearest, ties up). -/
def roundTo (k : ℕ) (x : α) : α := (round (x * 10 ^ k) : ℤ) / 10 ^ k

/-- Python `int(x)`: truncation toward zero. -/
def intTrunc (x : α) : ℤ := if 0 ≤ x then ⌊x⌋ else ⌈x⌉

/-- Source line 25: `np.mean(risk_input_list) if risk_input_list else 0.5`. -/
def avgRiskFactor (l : List α) : α :=
  if l.isEmpty then 0.5 else l.sum / l.length

/-- The `i`-th sample of `np.linspace(0, 36, 100)` (line 28):
100 evenly spaced points over [0, 36]. -/
def monthsVal (i : ℕ) : α := 36 * i / 99

/-- Source line 28: `months = np.linspace(0, 36, 100)` as a list. -/
def monthsList : List α := (List.range 100).map monthsVal

/-- Source line 32:
`base_curve = 10000 * np.exp(0.08 * months) * (0.5 + avg_risk_factor)`,
pointwise. -/
def baseCurve (M : CostModel α) (rf t : α) : α :=
  10000 * M.exp (0.08 * t) * (0.5 + rf)

/-- Source line 36:
`seasonality = -5000 * np.sin(months * 0.5) - 3000 * np.cos(months * 0.2)`,
pointwise. -/
def seasonality (M : CostModel α) (t : α) : α :=
  -5000 * M.sin (t * 0.5) - 3000 * M.cos (t * 0.2)

/-- Source line 38: `total_cost_curve = base_curve + seasonality`, pointwise. -/
def totalCost (M : CostModel α) (rf t : α) : α :=
  baseCurve M rf t + seasonality M t

/-- The full 100-point cost curve as a list. -/
def costList (M : CostModel α) (rf : α) : List α :=
  monthsList.map (totalCost M rf)

/-- The index clipping of `np.take(..., mode=clip)`: clip an integer index
into `[0, n - 1]`. -/
def clipIdx (n : ℕ) (i : ℤ) : ℕ := (min (max i 0) ((n : ℤ) - 1)).toNat

/-- Model of `np.take(data, i, mode=clip)`: element access with the index clipped
into `[0, length - 1]`, as used by `scipy.signal.argrelextrema`'s default
boundary mode. -/
def takeClip (l : List α) (i : ℤ) : α :=
  l.getD (clipIdx l.length i) 0

/-- Source line 42: `scipy.signal.argrelextrema(data, np.less)[0]`, the indices
`i` with `data[i] < data[clip(i+1)]` and `data[i] < data[clip(i-1)]`
(order 1, clip boundary mode), in increasing order. -/
def argrelmin (l : List α) : List ℕ :=
  (List.range l.length).filter fun i =>
    decide (takeClip l i < takeClip l ((i : ℤ) + 1)) &&
    decide (takeClip l i < takeClip l ((i : ℤ) - 1))

/-- One entry of the `optimal_points`/`annotations` list (lines 47-51). -/
structure OptPoint (α : Type) where
  month : α
  cost : α
  label : String
  deriving DecidableEq

/-- The annotation built from minimum index `idx` (lines 47-51):
rounded month, rounded cost, label `"Mes {int(months[idx])}"`. -/
def mkOptPoint (M : CostModel α) (rf : α) (idx : ℕ) : OptPoint α :=
  { month := roundTo 1 (monthsVal idx)
    cost := roundTo 2 ((costList M rf).getD idx 0)
    label := "Mes " ++ toString (intTrunc (monthsVal idx : α)) }

/-- Source lines 45-51: `for idx in minima_indices[:3]: optimal_points.append(...)`. -/
def optimalPoints (M : CostModel α) (rf : α) : List (OptPoint α) :=
  ((argrelmin (costList M rf)).take 3).map (mkOptPoint M rf)

/-- Python slice `l[::2]`: every other element, starting at index 0. -/
def everyOther : List β → List β
  | [] => []
  | [x] => [x]
  | x :: _ :: rest => x :: everyOther rest

/-- One entry of `chart_data` (line 57). -/
structure ChartPoint (α : Type) where
  x : α
  y : α
  deriving DecidableEq

/-- Source lines 55-57: `chart_data`, the zip of the downsampled months and costs,
each point rounded. -/
def chartData (M : CostModel α) (rf : α) : List (ChartPoint α) :=
  ((everyOther (monthsList : List α)).zip (everyOther (costList M rf))).map
    fun p => { x := roundTo 1 p.1, y := roundTo 2 p.2 }

/-- A value of the JSON-like response dictionary. -/
inductive JVal (α : Type) where
  | jstr : String → JVal α
  | jnum : α → JVal α
  | jnat : ℕ → JVal α
  | jchart : List (ChartPoint α) → JVal α
  | jann : List (OptPoint α) → JVal α
  deriving DecidableEq

/-- The response dictionary, modelled as an association list preserving
the source's key order. -/
abbrev Response (α : Type) : Type := List (String × JVal α)

/-- Source lines 7-66: `get_maintenance_windows(risk_input_list)` builds the
full response dictionary of lines 59-64. -/
def get_maintenance_windows (M : CostModel α) (l : List α) : Response α :=
  let rf : α := avgRiskFactor l
  [("series_data", JVal.jchart (chartData M rf)),
   ("annotations", JVal.jann (optimalPoints M rf)),
   ("avg_risk_factor", JVal.jnum (roundTo 3 rf)),
   ("total_points", JVal.jnat l.length)]

/-- The dictionary returned on empty input (lines 80-84). -/
def emptyInputResponse : Response α :=
  [("error", JVal.jstr "No se proporcionaron puntos críticos"),
   ("series_data", JVal.jchart []),
   ("annotations", JVal.jann [])]

/-- The dictionary returned when no observation is valid (lines 93-97). -/
def noValidResponse : Response α :=
  [("error", JVal.jstr "No hay puntos críticos válidos (deben estar entre 0 y 1)"),
   ("series_data", JVal.jchart []),
   ("annotations", JVal.jann [])]

/-- The validity test of line 87: `0 <= p <= 1`. -/
def validRange (p : α) : Bool := decide (0 ≤ p ∧ p ≤ 1)

/-- Source lines 69-102: `job_maintain_service(critical_points)`, the validation
wrapper around `get_maintenance_windows`. -/
def job_maintain_service (M : CostModel α) (critical_points : List α) :
    Response α :=
  if critical_points.isEmpty then emptyInputResponse
  else
    let valid_points := critical_points.filter validRange
    if valid_points.isEmpty then noValidResponse
    else get_maintenance_windows M valid_points

end Plasser

namespace Plasser

/-- The genuine real-valued cost model of the source. -/
noncomputable def realModel : CostModel ℝ :=
  { exp := Real.exp, sin := Real.sin, cos := Real.cos }

end Plasser

namespace Plasser

variable {α : Type} [LinearOrderedField α] [FloorRing α]

theorem takeClip_congr (l : List α) {a b : ℤ}
    (h : clipIdx l.length a = clipIdx l.length b) :
    takeClip l a = takeClip l b := by
  unfold takeClip
  rw [h]

theorem takeClip_coe (l : List α) (j : ℕ) (h : j < l.length) :
    takeClip l (j : ℤ) = l.getD j 0 := by
  unfold takeClip clipIdx
  congr 1
  omega

/-- Characterization of the scipy local-minimum indices: exactly the
strictly interior indices whose value is strictly below both immediate
neighbors. -/
theorem mem_argrelmin_iff (l : List α) (i : ℕ) :
    i ∈ argrelmin l ↔
      0 < i ∧ i + 1 < l.length ∧
        l.getD i 0 < l.getD (i - 1) 0 ∧ l.getD i 0 < l.getD (i + 1) 0 := by
  unfold argrelmin
  rw [List.mem_filter, List.mem_range]
  simp only [Bool.and_eq_true, decide_eq_true_eq]
  constructor
  · rintro ⟨hi, h1, h2⟩
    have hpos : 0 < i := by
      by_contra h0
      have hi0 : i = 0 := by omega
      subst hi0
      have e : takeClip l ((0 : ℕ) : ℤ) = takeClip l (((0 : ℕ) : ℤ) - 1) :=
        takeClip_congr l (by unfold clipIdx; omega)
      rw [e] at h2
      exact lt_irrefl _ h2
    have hint : i + 1 < l.length := by
      by_contra hbig
      have e : takeClip l ((i : ℕ) : ℤ) = takeClip l (((i : ℕ) : ℤ) + 1) :=
        takeClip_congr l (by unfold clipIdx; omega)
      rw [e] at h1
      exact lt_irrefl _ h1
    refine ⟨hpos, hint, ?_, ?_⟩
    · have ei : takeClip l ((i : ℕ) : ℤ) = l.getD i 0 := takeClip_coe l i hi
      have em : takeClip l (((i : ℕ) : ℤ) - 1) = l.getD (i - 1) 0 := by
        have : ((i : ℕ) : ℤ) - 1 = ((i - 1 : ℕ) : ℤ) := by omega
        rw [this]
        exact takeClip_coe l (i - 1) (by omega)
      rw [ei, em] at h2
      exact h2
    · have ei : takeClip l ((i : ℕ) : ℤ) = l.getD i 0 := takeClip_coe l i hi
      have ep : takeClip l (((i : ℕ) : ℤ) + 1) = l.getD (i + 1) 0 := by
        have : ((i : ℕ) : ℤ) + 1 = ((i + 1 : ℕ) : ℤ) := by omega
        rw [this]
        exact takeClip_coe l (i + 1) hint
      rw [ei, ep] at h1
      exact h1
  · rintro ⟨hpos, hint, ha, hb⟩
    have hi : i < l.length := by omega
    have ei : takeClip l ((i : ℕ) : ℤ) = l.getD i 0 := takeClip_coe l i hi
    have em : takeClip l (((i : ℕ) : ℤ) - 1) = l.getD (i - 1) 0 := by
      have : ((i : ℕ) : ℤ) - 1 = ((i - 1 : ℕ) : ℤ) := by omega
      rw [this]
      exact takeClip_coe l (i - 1) (by omega)
    have ep : takeClip l (((i : ℕ) : ℤ) + 1) = l.getD (i + 1) 0 := by
      have : ((i : ℕ) : ℤ) + 1 = ((i + 1 : ℕ) : ℤ) := by omega
      rw [this]
      exact takeClip_coe l (i + 1) hint
    exact ⟨hi, by rw [ei, ep]; exact hb, by rw [ei, em]; exact ha⟩

/-- The extracted minimum indices are strictly increasing. -/
theorem argrelmin_pairwise (l : List α) :
    (argrelmin l).Pairwise (· < ·) :=
  (List.pairwise_lt_range _).sublist (List.filter_sublist _)

/-- Two distinct local-minimum indices are at least 2 apart: adjacent
samples cannot both be strict local minima. -/
theorem argrelmin_gap (l : List α) {i j : ℕ}
    (hi : i ∈ argrelmin l) (hj : j ∈ argrelmin l) (hij : i < j) :
    i + 2 ≤ j := by
  by_contra h
  have hji : j = i + 1 := by omega
  subst hji
  rw [mem_argrelmin_iff] at hi hj
  have h1 : l.getD i 0 < l.getD (i + 1) 0 := hi.2.2.2
  have h2 : l.getD (i + 1) 0 < l.getD (i + 1 - 1) 0 := hj.2.2.1
  simp only [Nat.add_sub_cancel] at h2
  exact absurd h1 (not_lt_of_gt h2)

/-- Rounding to `k` decimals moves a value by at most half a unit in the
last place. -/
theorem abs_roundTo_sub_le (k : ℕ) (x : α) :
    |roundTo k x - x| ≤ 1 / (2 * 10 ^ k) := by
  have hp : (0 : α) < 10 ^ k := by positivity
  have h := abs_sub_round (x * 10 ^ k)
  have e : roundTo k x - x = ((round (x * 10 ^ k) : ℤ) - x * 10 ^ k) / 10 ^ k := by
    unfold roundTo
    field_simp
    ring
  rw [e, abs_div, abs_of_pos hp, abs_sub_comm]
  rw [div_le_div_iff₀ hp (by positivity)]
  calc |x * 10 ^ k - (round (x * 10 ^ k) : ℤ)| * (2 * 10 ^ k)
      ≤ (1 / 2) * (2 * 10 ^ k) := by
        apply mul_le_mul_of_nonneg_right h (by positivity)
    _ = 1 * 10 ^ k := by ring

/-- Values at least 1/5 apart round (to 1 decimal) to strictly ordered
values. -/
theorem roundTo_one_lt_of_gap {x y : α} (h : x + 1 / 5 ≤ y) :
    roundTo 1 x < roundTo 1 y := by
  have hx := abs_le.1 (abs_sub_round (x * 10 ^ 1))
  have hy := abs_le.1 (abs_sub_round (y * 10 ^ 1))
  unfold roundTo
  have h10 : (10 : α) ^ 1 = 10 := by norm_num
  rw [h10] at hx hy ⊢
  have hlt : ((round (x * 10) : ℤ) : α) < ((round (y * 10) : ℤ) : α) := by
    nlinarith [hx.1, hx.2, hy.1, hy.2]
  linarith [hlt]

theorem monthsList_length : (monthsList : List α).length = 100 := by
  simp [monthsList]

theorem monthsList_getD {i : ℕ} (h : i < 100) :
    (monthsList : List α).getD i 0 = monthsVal i := by
  rw [List.getD_eq_getElem _ _ (by simpa [monthsList_length] using h)]
  simp [monthsList]

theorem costList_length (M : CostModel α) (rf : α) :
    (costList M rf).length = 100 := by
  simp [costList, monthsList]

theorem costList_getD (M : CostModel α) (rf : α) {i : ℕ} (h : i < 100) :
    (costList M rf).getD i 0 = totalCost M rf (monthsVal i) := by
  rw [List.getD_eq_getElem _ _ (by simpa [costList_length] using h)]
  simp [costList, monthsList]

theorem monthsVal_strictMono {i j : ℕ} (h : i < j) :
    (monthsVal i : α) < monthsVal j := by
  unfold monthsVal
  have : (i : α) < (j : α) := by exact_mod_cast h
  have h99 : (0 : α) < 99 := by norm_num
  rw [div_lt_div_iff₀ h99 h99]
  nlinarith

theorem everyOther_length : ∀ (l : List β),
    (everyOther l).length = (l.length + 1) / 2
  | [] => by simp [everyOther]
  | [_] => by simp [everyOther]
  | _ :: _ :: rest => by
      have ih := everyOther_length rest
      simp only [everyOther, List.length_cons, ih]
      omega

theorem everyOther_getD : ∀ (l : List β) (j : ℕ) (d : β),
    (everyOther l).getD j d = l.getD (2 * j) d
  | [], _, _ => rfl
  | [x], j, d => by
      cases j with
      | zero => rfl
      | succ j =>
          rw [show 2 * (j + 1) = 2 * j + 1 + 1 by ring]
          simp [everyOther, List.getD]
  | x :: y :: rest, j, d => by
      cases j with
      | zero => rfl
      | succ j =>
          have ih := everyOther_getD rest j d
          rw [show 2 * (j + 1) = 2 * j + 1 + 1 by ring]
          simpa [everyOther] using ih

/-- C3: for every riskFactor `rf` and every time `t`, the synthesized cost
equals `10000 * exp(0.08 * t) * (0.5 + rf) + (-5000 * sin(0.5 * t)
- 3000 * cos(0.2 * t))`; in particular the curve value at `t = 0` equals
`10000 * (0.5 + rf) - 3000`, since `season(0) = -3000`. -/
theorem C3_cost_formula : ∀ rf t : ℝ,
    totalCost realModel rf t =
      10000 * Real.exp (0.08 * t) * (0.5 + rf) +
        (-5000 * Real.sin (0.5 * t) - 3000 * Real.cos (0.2 * t)) ∧
    totalCost realModel rf 0 = 10000 * (0.5 + rf) - 3000 := by
  intro rf t
  constructor
  · unfold totalCost baseCurve seasonality realModel
    rw [mul_comm t (0.5 : ℝ), mul_comm t (0.2 : ℝ)]
  · unfold totalCost baseCurve seasonality realModel
    norm_num [Real.exp_zero, Real.sin_zero, Real.cos_zero]
    ring

/-- C4: the full cost curve is sampled at exactly 100 evenly spaced time
points over the closed interval [0, 36] months, inclusive of both
endpoints, with the time values strictly increasing. -/
theorem C4_time_domain :
    (monthsList : List ℝ).length = 100 ∧
    (monthsList : List ℝ).getD 0 0 = 0 ∧
    (monthsList : List ℝ).getD 99 0 = 36 ∧
    (∀ i : Fin 99, (monthsList : List ℝ).getD ((i : ℕ) + 1) 0 -
      (monthsList : List ℝ).getD (i : ℕ) 0 = 36 / 99) ∧
    (monthsList : List ℝ).Pairwise (· < ·) ∧
    ∀ rf : ℝ, (costList realModel rf).length = 100 := by
  refine ⟨monthsList_length, ?_, ?_, ?_, ?_, fun rf => costList_length _ _⟩
  · rw [monthsList_getD (by norm_num)]
    norm_num [monthsVal]
  · rw [monthsList_getD (by norm_num)]
    norm_num [monthsVal]
  · intro i
    have hi : (i : ℕ) < 99 := i.isLt
    rw [monthsList_getD (by omega), monthsList_getD (by omega)]
    unfold monthsVal
    push_cast
    ring
  · unfold monthsList
    rw [List.pairwise_map]
    exact (List.pairwise_lt_range _).imp fun h => monthsVal_strictMono h

/-- C9: on an empty observation list, `get_maintenance_windows` defaults
the risk factor to 0.5 (a defined default, not an error) and still
produces a full result, with the 100-point curve's amplitude scaled by
`0.5 + 0.5`. -/
theorem C9_empty_default :
    avgRiskFactor ([] : List ℝ) = 0.5 ∧
    get_maintenance_windows realModel ([] : List ℝ) =
      [("series_data", JVal.jchart (chartData realModel 0.5)),
       ("annotations", JVal.jann (optimalPoints realModel 0.5)),
       ("avg_risk_factor", JVal.jnum (roundTo 3 (0.5 : ℝ))),
       ("total_points", JVal.jnat 0)] ∧
    (costList realModel (0.5 : ℝ)).length = 100 ∧
    ∀ t : ℝ, baseCurve realModel 0.5 t =
      10000 * Real.exp (0.08 * t) * (0.5 + 0.5) := by
  refine ⟨rfl, rfl, costList_length _ _, fun t => rfl⟩

/-- C1: a sample at strictly interior index i (0 < i < 99) of the
100-point cost curve is reported as a local minimum iff its cost is
strictly less than the costs at indices i-1 and i+1; boundary indices 0
and 99 are never reported, in particular never among the optimal
points. -/
theorem C1_local_minima (rf : ℝ) :
    (∀ i : Fin 100,
      ((i : ℕ) ∈ argrelmin (costList realModel rf) ↔
        0 < (i : ℕ) ∧ (i : ℕ) < 99 ∧
          (costList realModel rf).getD (i : ℕ) 0 <
            (costList realModel rf).getD ((i : ℕ) - 1) 0 ∧
          (costList realModel rf).getD (i : ℕ) 0 <
            (costList realModel rf).getD ((i : ℕ) + 1) 0)) ∧
    0 ∉ argrelmin (costList realModel rf) ∧
    99 ∉ argrelmin (costList realModel rf) ∧
    ∀ j ∈ (argrelmin (costList realModel rf)).take 3, 0 < j ∧ j < 99 := by
  have hchar : ∀ i : ℕ, i ∈ argrelmin (costList realModel rf) ↔
      0 < i ∧ i + 1 < 100 ∧
        (costList realModel rf).getD i 0 <
          (costList realModel rf).getD (i - 1) 0 ∧
        (costList realModel rf).getD i 0 <
          (costList realModel rf).getD (i + 1) 0 := fun i => by
    rw [mem_argrelmin_iff, costList_length]
  refine ⟨fun i => ?_, ?_, ?_, fun j hj => ?_⟩
  · rw [hchar]
    constructor
    · rintro ⟨h1, h2, h3, h4⟩
      exact ⟨h1, by omega, h3, h4⟩
    · rintro ⟨h1, h2, h3, h4⟩
      exact ⟨h1, by omega, h3, h4⟩
  · intro h
    rw [hchar] at h
    exact Nat.lt_irrefl 0 h.1
  · intro h
    rw [hchar] at h
    exact absurd h.2.1 (by norm_num)
  · have hj2 : j ∈ argrelmin (costList realModel rf) := List.mem_of_mem_take hj
    rw [hchar] at hj2
    exact ⟨hj2.1, by omega⟩

/-- C2: the annotations are the first at most 3 local minima in
increasing time order: never longer than 3, with strictly increasing
month values, each labeled from the truncated integer month of its
sample. -/
theorem C2_selection (rf : ℝ) :
    optimalPoints realModel rf =
      ((argrelmin (costList realModel rf)).take 3).map (mkOptPoint realModel rf) ∧
    (optimalPoints realModel rf).length ≤ 3 ∧
    ((optimalPoints realModel rf).map OptPoint.month).Pairwise (· < ·) ∧
    ∀ p ∈ optimalPoints realModel rf,
      ∃ i ∈ argrelmin (costList realModel rf),
        p.month = roundTo 1 (monthsVal i) ∧
        p.cost = roundTo 2 ((costList realModel rf).getD i 0) ∧
        p.label = "Mes " ++ toString (intTrunc (monthsVal i : ℝ)) := by
  refine ⟨rfl, ?_, ?_, ?_⟩
  · unfold optimalPoints
    rw [List.length_map, List.length_take]
    exact min_le_left _ _
  · unfold optimalPoints
    rw [List.map_map, List.pairwise_map]
    have hp : ((argrelmin (costList realModel rf)).take 3).Pairwise (· < ·) :=
      (argrelmin_pairwise _).sublist (List.take_sublist _ _)
    refine List.Pairwise.imp_of_mem ?_ hp
    intro a b ha hb hab
    have ha2 := List.mem_of_mem_take ha
    have hb2 := List.mem_of_mem_take hb
    have hgap := argrelmin_gap _ ha2 hb2 hab
    show (mkOptPoint realModel rf a).month < (mkOptPoint realModel rf b).month
    unfold mkOptPoint
    apply roundTo_one_lt_of_gap
    unfold monthsVal
    have hab2 : (a : ℝ) + 2 ≤ (b : ℝ) := by exact_mod_cast hgap
    linarith
  · intro p hp
    unfold optimalPoints at hp
    rw [List.mem_map] at hp
    obtain ⟨i, hi, rfl⟩ := hp
    exact ⟨i, List.mem_of_mem_take hi, rfl, rfl, rfl⟩

/-- C8: the display curve consists of exactly 50 samples, the even-index
samples of the full 100-point curve, with time rounded to 1 decimal and
cost rounded to 2 decimals. -/
theorem C8_display_curve (rf : ℝ) :
    (chartData realModel rf).length = 50 ∧
    ∀ j : Fin 50,
      (chartData realModel rf).getD (j : ℕ) { x := 0, y := 0 } =
        { x := roundTo 1 (monthsVal (2 * (j : ℕ))),
          y := roundTo 2 ((costList realModel rf).getD (2 * (j : ℕ)) 0) } := by
  have hm : (everyOther (monthsList : List ℝ)).length = 50 := by
    rw [everyOther_length, monthsList_length]
  have hc : (everyOther (costList realModel rf)).length = 50 := by
    rw [everyOther_length, costList_length]
  have hlen : (chartData realModel rf).length = 50 := by
    unfold chartData
    rw [List.length_map, List.length_zip, hm, hc]
    exact min_self 50
  refine ⟨hlen, fun j => ?_⟩
  have hj : (j : ℕ) < (chartData realModel rf).length := by
    rw [hlen]
    exact j.isLt
  have hjm : (j : ℕ) < (everyOther (monthsList : List ℝ)).length := by
    rw [hm]
    exact j.isLt
  have hjc : (j : ℕ) < (everyOther (costList realModel rf)).length := by
    rw [hc]
    exact j.isLt
  have h2j : 2 * (j : ℕ) < 100 := by
    have := j.isLt
    omega
  rw [List.getD_eq_getElem _ _ hj]
  unfold chartData
  rw [List.getElem_map, List.getElem_zip]
  rw [← List.getD_eq_getElem (everyOther (monthsList : List ℝ)) 0 hjm,
    ← List.getD_eq_getElem (everyOther (costList realModel rf)) 0 hjc,
    everyOther_getD, everyOther_getD, monthsList_getD h2j]

theorem job_eq_empty (M : CostModel α) :
    job_maintain_service M ([] : List α) = emptyInputResponse := rfl

theorem job_eq_noValid (M : CostModel α) {l : List α} (hl : l ≠ [])
    (hv : l.filter validRange = []) :
    job_maintain_service M l = noValidResponse := by
  cases l with
  | nil => exact absurd rfl hl
  | cons x xs => simp [job_maintain_service, hv]

theorem job_eq_success (M : CostModel α) {l : List α}
    (hv : l.filter validRange ≠ []) :
    job_maintain_service M l = get_maintenance_windows M (l.filter validRange) := by
  have hl : l ≠ [] := by
    intro h
    subst h
    simp at hv
  have h1 : l.isEmpty = false := by
    cases l
    · exact absurd rfl hl
    · rfl
  have h2 : (l.filter validRange).isEmpty = false := by
    cases hfe : l.filter validRange
    · exact absurd hfe hv
    · rfl
  simp [job_maintain_service, h1, h2]

theorem gmw_ne_error (M : CostModel α) (l : List α) (msg : String)
    (rest : Response α) :
    get_maintenance_windows M l ≠ ("error", JVal.jstr msg) :: rest := by
  intro h
  simp [get_maintenance_windows] at h

/-- C7: the service returns the EmptyInput structured result exactly when
the input is empty, and the distinct NoValidObservations structured
result exactly when the input is non-empty but has no observation in
[0, 1]; both are plain results of the same shape with different
messages. -/
theorem C7_error_variants (l : List ℝ) :
    (job_maintain_service realModel l = emptyInputResponse ↔ l = []) ∧
    (job_maintain_service realModel l = noValidResponse ↔
      l ≠ [] ∧ l.filter validRange = []) ∧
    (emptyInputResponse : Response ℝ) ≠ noValidResponse := by
  have hne : (emptyInputResponse : Response ℝ) ≠ noValidResponse := by
    simp [emptyInputResponse, noValidResponse]
  refine ⟨⟨?_, ?_⟩, ⟨?_, ?_⟩, hne⟩
  · intro h
    by_contra hl
    by_cases hv : l.filter validRange = []
    · rw [job_eq_noValid realModel hl hv] at h
      exact hne h.symm
    · rw [job_eq_success realModel hv] at h
      exact gmw_ne_error realModel _ _ _ h
  · intro h
    subst h
    rfl
  · intro h
    rcases eq_or_ne l [] with hl | hl
    · subst hl
      rw [job_eq_empty] at h
      exact absurd h hne
    · by_cases hv : l.filter validRange = []
      · exact ⟨hl, hv⟩
      · rw [job_eq_success realModel hv] at h
        exact absurd h (gmw_ne_error realModel _ _ _)
  · rintro ⟨hl, hv⟩
    exact job_eq_noValid realModel hl hv

/-- C10: error results carry only the fields error, series_data and
annotations (avg_risk_factor and total_points are absent), while
successful results carry series_data, annotations, avg_risk_factor and
total_points (and no error field). -/
theorem C10_error_shape (l : List ℝ) :
    ((l = [] ∨ l.filter validRange = []) →
      (job_maintain_service realModel l).map Prod.fst =
        ["error", "series_data", "annotations"] ∧
      "avg_risk_factor" ∉ (job_maintain_service realModel l).map Prod.fst ∧
      "total_points" ∉ (job_maintain_service realModel l).map Prod.fst) ∧
    (l.filter validRange ≠ [] →
      (job_maintain_service realModel l).map Prod.fst =
        ["series_data", "annotations", "avg_risk_factor", "total_points"] ∧
      "error" ∉ (job_maintain_service realModel l).map Prod.fst) := by
  constructor
  · intro h
    rcases eq_or_ne l [] with h0 | h0
    · subst h0
      rw [job_eq_empty]
      exact ⟨rfl, by simp [emptyInputResponse], by simp [emptyInputResponse]⟩
    · have hv : l.filter validRange = [] := h.resolve_left h0
      rw [job_eq_noValid realModel h0 hv]
      exact ⟨rfl, by simp [noValidResponse], by simp [noValidResponse]⟩
  · intro hv
    rw [job_eq_success realModel hv]
    exact ⟨rfl, by simp [get_maintenance_windows]⟩

/-- Closed witness for C10: the key lists at the concrete inputs `[]`
(error shape) and `[0.5]` (success shape). -/
theorem C10_error_shape_witness :
    ((job_maintain_service realModel ([] : List ℝ)).map Prod.fst =
        ["error", "series_data", "annotations"] ∧
      "avg_risk_factor" ∉ (job_maintain_service realModel ([] : List ℝ)).map Prod.fst ∧
      "total_points" ∉ (job_maintain_service realModel ([] : List ℝ)).map Prod.fst) ∧
    ((job_maintain_service realModel ([0.5] : List ℝ)).map Prod.fst =
        ["series_data", "annotations", "avg_risk_factor", "total_points"] ∧
      "error" ∉ (job_maintain_service realModel ([0.5] : List ℝ)).map Prod.fst) :=
  ⟨(C10_error_shape []).1 (Or.inl rfl),
   (C10_error_shape [0.5]).2 (by
    have h : validRange (0.5 : ℝ) = true := by
      simp [validRange]
      norm_num
    simp [List.filter, h])⟩

/-- C5: for a non-empty all-valid observation list the service computes
the exact arithmetic mean as the risk factor, reports it (rounded, within
1/2000 of the mean) as avg_risk_factor, and reports total_points equal to
the number of valid observations. -/
theorem C5_mean_aggregation (l : List ℝ) (hne : l ≠ [])
    (hall : ∀ x ∈ l, 0 ≤ x ∧ x ≤ 1) :
    avgRiskFactor l = l.sum / l.length ∧
    job_maintain_service realModel l = get_maintenance_windows realModel l ∧
    List.lookup "avg_risk_factor" (job_maintain_service realModel l) =
      some (JVal.jnum (roundTo 3 (l.sum / l.length))) ∧
    |roundTo 3 (l.sum / l.length) - l.sum / l.length| ≤ 1 / 2000 ∧
    List.lookup "total_points" (job_maintain_service realModel l) =
      some (JVal.jnat l.length) := by
  have hfilter : l.filter validRange = l := by
    apply List.filter_eq_self.mpr
    intro x hx
    simp only [validRange, decide_eq_true_eq]
    exact hall x hx
  have hjob : job_maintain_service realModel l =
      get_maintenance_windows realModel l := by
    rw [job_eq_success realModel (by rw [hfilter]; exact hne), hfilter]
  have hie : l.isEmpty = false := by
    cases l
    · exact absurd rfl hne
    · rfl
  have havg : avgRiskFactor l = l.sum / l.length := by
    unfold avgRiskFactor
    rw [hie]
    rfl
  refine ⟨havg, hjob, ?_, ?_, ?_⟩
  · rw [hjob]
    simp [get_maintenance_windows, List.lookup, havg]
  · have h := abs_roundTo_sub_le 3 (l.sum / l.length)
    norm_num at h
    exact h
  · rw [hjob]
    simp [get_maintenance_windows, List.lookup]

/-- Closed witness for C5 at the concrete list `[0.2, 0.4]`. -/
theorem C5_mean_aggregation_witness :
    ([0.2, 0.4] : List ℝ) ≠ [] ∧
    (∀ x ∈ ([0.2, 0.4] : List ℝ), 0 ≤ x ∧ x ≤ 1) ∧
    List.lookup "avg_risk_factor"
        (job_maintain_service realModel ([0.2, 0.4] : List ℝ)) =
      some (JVal.jnum (roundTo 3
        (([0.2, 0.4] : List ℝ).sum / ([0.2, 0.4] : List ℝ).length))) ∧
    List.lookup "total_points"
        (job_maintain_service realModel ([0.2, 0.4] : List ℝ)) =
      some (JVal.jnat ([0.2, 0.4] : List ℝ).length) := by
  have hb : ∀ x ∈ ([0.2, 0.4] : List ℝ), 0 ≤ x ∧ x ≤ 1 := by
    intro x hx
    simp only [List.mem_cons, List.not_mem_nil, or_false] at hx
    rcases hx with rfl | rfl
    · norm_num
    · norm_num
  have h := C5_mean_aggregation [0.2, 0.4] (by simp) hb
  exact ⟨by simp, hb, h.2.2.1, h.2.2.2.2⟩

/-- C6: when only some observations are invalid, the service's output on
the whole list equals its output on the valid subset alone; at the
spec's example input `[0.2, 1.5, 0.4, -0.1]`, the subset `[0.2, 0.4]` is
used, its mean is 0.3 and the dropped count is 2. -/
theorem C6_partial_filtering :
    (∀ l : List ℝ, l.filter validRange ≠ [] →
      job_maintain_service realModel l =
        job_maintain_service realModel (l.filter validRange)) ∧
    ([0.2, 1.5, 0.4, -0.1] : List ℝ).filter validRange = [0.2, 0.4] ∧
    avgRiskFactor ([0.2, 0.4] : List ℝ) = 0.3 ∧
    ([0.2, 1.5, 0.4, -0.1] : List ℝ).length -
      (([0.2, 1.5, 0.4, -0.1] : List ℝ).filter validRange).length = 2 := by
  have h02 : validRange (0.2 : ℝ) = true := by
    simp [validRange]
    norm_num
  have h15 : validRange (1.5 : ℝ) = false := by
    simp [validRange]
    norm_num
  have h04 : validRange (0.4 : ℝ) = true := by
    simp [validRange]
    norm_num
  have hm1 : validRange (-0.1 : ℝ) = false := by
    simp [validRange]
    norm_num
  have hfe : ([0.2, 1.5, 0.4, -0.1] : List ℝ).filter validRange = [0.2, 0.4] := by
    simp [List.filter, h02, h15, h04, hm1]
  refine ⟨?_, hfe, ?_, ?_⟩
  · intro l hv
    have hidem : (l.filter validRange).filter validRange = l.filter validRange := by
      apply List.filter_eq_self.mpr
      intro x hx
      exact List.of_mem_filter hx
    rw [job_eq_success realModel hv,
      job_eq_success realModel (by rw [hidem]; exact hv), hidem]
  · unfold avgRiskFactor
    norm_num
  · rw [hfe]
    rfl

/-- Closed witness for C6 at the spec's example input. -/
theorem C6_partial_filtering_witness :
    ([0.2, 1.5, 0.4, -0.1] : List ℝ).filter validRange ≠ [] ∧
    job_maintain_service realModel ([0.2, 1.5, 0.4, -0.1] : List ℝ) =
      job_maintain_service realModel
        (([0.2, 1.5, 0.4, -0.1] : List ℝ).filter validRange) :=
  ⟨by rw [C6_partial_filtering.2.1]; simp,
   C6_partial_filtering.1 _ (by rw [C6_partial_filtering.2.1]; simp)⟩

end Plasser
